import Mathlib

/-!
# Wash: entries, the Kubernetes volume adapter and `munge.ToType`

A shallow embedding of `plugin/entryBase.go`, `plugin/kubernetes/pvc.go` and
`munge/interface.go`, followed by the properties proved about them.

Conventions of the embedding:
* a Go `string` / `[]byte` is the list of its bytes (`GoString`);
* a Go panic is `none` (or the `panic` outcome) of the embedded function;
* methods with a pointer receiver return the updated receiver;
* calls made on the Kubernetes client are recorded, in order, in a trace.
-/

namespace Wash

/-! ## Go strings -/

/-- A Go string: its bytes, in order. Every byte of a real string is below 256. -/
abbrev GoString := List Nat

/-- The bytes of an ASCII string literal of the source. -/
def lit (s : String) : GoString := s.toList.map Char.toNat

/-- Go `utf8.RuneError`, the replacement code point U+FFFD. -/
def RuneError : Nat := 0xFFFD

/-- Go `utf8.MaxRune`. -/
def MaxRune : Int := 0x10FFFF

/-- UTF-8 encoding of a code point (Go `utf8.EncodeRune` on a valid rune). -/
def encodeRune (r : Nat) : GoString :=
  if r < 0x80 then [r]
  else if r < 0x800 then [0xC0 + r / 64, 0x80 + r % 64]
  else if r < 0x10000 then [0xE0 + r / 4096, 0x80 + (r / 64) % 64, 0x80 + r % 64]
  else [0xF0 + r / 262144, 0x80 + (r / 4096) % 64, 0x80 + (r / 64) % 64, 0x80 + r % 64]

/-- Go conversion `string(r)` of a rune (an `int32`): the UTF-8 encoding of `r`,
or of U+FFFD when `r` is negative, above `MaxRune` or a surrogate. -/
def runeToString (r : Int) : GoString :=
  if r < 0 ∨ MaxRune < r ∨ (0xD800 ≤ r ∧ r ≤ 0xDFFF) then encodeRune RuneError
  else encodeRune r.toNat

/-- Scanning loop of `strings.Replace(s, old, new, -1)` for a non-empty `old`:
`skip` counts the bytes of the current occurrence of `old` still to be dropped. -/
def replaceLoop (old new : GoString) : GoString → Nat → GoString
  | [], _ => []
  | _ :: cs, skip + 1 => replaceLoop old new cs skip
  | c :: cs, 0 =>
    if old.isPrefixOf (c :: cs) then new ++ replaceLoop old new cs (old.length - 1)
    else c :: replaceLoop old new cs 0

/-- Go `strings.Replace(s, old, new, -1)`: every non-overlapping occurrence of
`old`, found left to right, is replaced by `new`. The source only calls it with
the one-byte `old = "/"`; the rune-wise insertion Go performs for an empty `old`
is outside this byte-level definition, which then returns `s`. -/
def stringsReplaceAll (s old new : GoString) : GoString :=
  if old = [] then s else replaceLoop old new s 0

/-- Go `strings.TrimLeft(s, cutset)` for an ASCII `cutset`. -/
def stringsTrimLeft (s cutset : GoString) : GoString :=
  s.dropWhile (fun c => decide (c ∈ cutset))

/-- Go `strings.TrimRight(s, cutset)` for an ASCII `cutset`. -/
def stringsTrimRight (s cutset : GoString) : GoString :=
  (s.reverse.dropWhile (fun c => decide (c ∈ cutset))).reverse

/-- Go `strings.Trim(s, cutset)` for an ASCII `cutset`: all leading and all
trailing bytes contained in `cutset` are removed. -/
def stringsTrim (s cutset : GoString) : GoString :=
  stringsTrimRight (stringsTrimLeft s cutset) cutset

/-! ## `plugin/entryBase.go` -/

/-- Go `time.Duration`: a count of nanoseconds. -/
abbrev Duration := Int

/-- Go `time.Second`. -/
def Second : Duration := 1000000000

/-- Source `type actionOpCode int8`. -/
abbrev actionOpCode := Int

/-- Source constant `List` (iota = 0). -/
def actionOpCode.List : actionOpCode := 0

/-- Source constant `Open` (iota = 1). -/
def actionOpCode.Open : actionOpCode := 1

/-- Source constant `Metadata` (iota = 2). -/
def actionOpCode.Metadata : actionOpCode := 2

/-- Source `EntryBase`. The array `ttl [3]time.Duration` is a function on its
three indices. -/
structure EntryBase where
  name : GoString
  canonicalName : GoString
  slashReplacementCh : Int
  washID : GoString
  ttl : Fin 3 → Duration

/-- Index into `e.ttl`: `none` is Go's index-out-of-range panic. -/
def ttlIndex (op : Int) : Option (Fin 3) :=
  if h : 0 ≤ op ∧ op < 3 then some ⟨op.toNat, by omega⟩ else none

/-- Source `(*EntryBase).Name`. -/
def EntryBase.Name (e : EntryBase) : GoString := e.name

/-- Source `(*EntryBase).cname`. -/
def EntryBase.cname (e : EntryBase) : GoString := e.canonicalName

/-- Source `(*EntryBase).slashReplacementChar`. -/
def EntryBase.slashReplacementChar (e : EntryBase) : Int := e.slashReplacementCh

/-- Source `(*EntryBase).id`. -/
def EntryBase.id (e : EntryBase) : GoString := e.washID

/-- Source `(*EntryBase).setID`. -/
def EntryBase.setID (e : EntryBase) (id : GoString) : EntryBase := { e with washID := id }

/-- Source `(*EntryBase).getTTLOf`: `e.ttl[op]`. -/
def EntryBase.getTTLOf (e : EntryBase) (op : actionOpCode) : Option Duration :=
  (ttlIndex op).map e.ttl

/-- Source `(*EntryBase).SetTTLOf`: `e.ttl[op] = ttl`. -/
def EntryBase.SetTTLOf (e : EntryBase) (op : actionOpCode) (ttl : Duration) : Option EntryBase :=
  (ttlIndex op).map fun i => { e with ttl := Function.update e.ttl i ttl }

/-- Source `(*EntryBase).DisableCachingFor`. -/
def EntryBase.DisableCachingFor (e : EntryBase) (op : actionOpCode) : Option EntryBase :=
  e.SetTTLOf op (-1)

/-- The indices visited by `for op := range e.ttl`. -/
def ttlRange : List actionOpCode := [0, 1, 2]

/-- Source `(*EntryBase).DisableDefaultCaching`. -/
def EntryBase.DisableDefaultCaching (e : EntryBase) : Option EntryBase :=
  ttlRange.foldlM (fun e op => e.DisableCachingFor op) e

/-- Source `newEntryBase`. -/
def newEntryBase (name : GoString) (slashReplacementCh : Int) : Option EntryBase :=
  let e : EntryBase :=
    { name := name
      slashReplacementCh := slashReplacementCh
      canonicalName := stringsReplaceAll name (lit "/") (runeToString slashReplacementCh)
      washID := []
      ttl := fun _ => 0 }
  ttlRange.foldlM (fun e op => e.SetTTLOf op (15 * Second)) e

/-- Source `NewEntryWithSlashReplacementChar`: panics (`none`) on an empty name. -/
def NewEntryWithSlashReplacementChar (name : GoString) (slashReplacementCh : Int) :
    Option EntryBase :=
  if name = lit "" then none else newEntryBase name slashReplacementCh

/-- Source `NewEntry`: the replacement character is `#`. -/
def NewEntry (name : GoString) : Option EntryBase :=
  NewEntryWithSlashReplacementChar name 35

/-! ## `plugin/kubernetes/pvc.go` -/

/-- Source constant `mountpoint`. -/
def mountpoint : GoString := lit "/mnt"

/-- Source `corev1.VolumeMount` (the fields the source sets). -/
structure VolumeMount where
  Name : GoString
  MountPath : GoString
  ReadOnly : Bool
deriving DecidableEq, Repr

/-- Source `corev1.Container` (the fields the source sets). -/
structure Container where
  Name : GoString
  Image : GoString
  Args : List GoString
  VolumeMounts : List VolumeMount
deriving DecidableEq, Repr

/-- Source `corev1.PersistentVolumeClaimVolumeSource`. -/
structure PersistentVolumeClaimVolumeSource where
  ClaimName : GoString
  ReadOnly : Bool
deriving DecidableEq, Repr

/-- Source `corev1.Volume` with a `PersistentVolumeClaim` volume source. -/
structure Volume where
  Name : GoString
  PersistentVolumeClaim : PersistentVolumeClaimVolumeSource
deriving DecidableEq, Repr

/-- Source `corev1.RestartPolicy`. -/
inductive RestartPolicy
  | Always
  | OnFailure
  | Never
deriving DecidableEq, Repr

/-- Source `corev1.PodSpec` (the fields the source sets). -/
structure PodSpec where
  Containers : List Container
  RestartPolicy : RestartPolicy
  Volumes : List Volume
deriving DecidableEq, Repr

/-- Source `corev1.Pod` (the fields the source sets). -/
structure Pod where
  GenerateName : GoString
  Spec : PodSpec
deriving DecidableEq, Repr

/-- Source `corev1.PodPhase`. -/
inductive PodPhase
  | Pending
  | Running
  | Succeeded
  | Failed
  | Unknown
deriving DecidableEq, Repr

/-- A `watch.Event` of a pod watch: its `Type` and, for `Modified`, the phase
of the pod it carries; `Error` carries the rendering of its status object. -/
inductive WatchEvent
  | Added
  | Modified (phase : PodPhase)
  | Deleted
  | Bookmark
  | Error (obj : GoString)
deriving DecidableEq, Repr

/-- An event delivered on the watcher's channel. `gap` is the time in
nanoseconds between the moment `waitForPod` enters its `select` and the moment
the event is ready; `timerFirst` says how the `select` resolves when the event
and the 30 second timer are ready at the same instant. -/
structure Arrival where
  gap : Nat
  timerFirst : Bool
  event : WatchEvent
deriving DecidableEq, Repr

/-- What the channel does after its last event: it is closed after `gap`
nanoseconds, or it stays open and silent for ever. -/
inductive ChanEnd
  | closed (gap : Nat) (timerFirst : Bool)
  | silent
deriving DecidableEq, Repr

/-- The behaviour over time of `watcher.ResultChan()`. -/
structure ResultChan where
  events : List Arrival
  fin : ChanEnd
deriving DecidableEq, Repr

/-- An error returned by a call on the Kubernetes client or on the log stream. -/
structure ClientError where
  msg : GoString
deriving DecidableEq, Repr

/-- The error values `pvc.go` handles. -/
inductive GoError
  /-- an error returned by the client, passed on unchanged -/
  | client (e : ClientError)
  /-- the package variable `errPodTerminated` -/
  | errPodTerminated
  /-- Go `fmt.Errorf("Channel error waiting for pod %v: %v", pid, e)` -/
  | channelError (pid : GoString)
  /-- Go `fmt.Errorf("Pod %v errored: %v", pid, e.Object)` -/
  | podErrored (pid : GoString) (obj : GoString)
  /-- Go `fmt.Errorf("Timed out waiting for pod %v", pid)` -/
  | timedOut (pid : GoString)
  /-- Go `errors.New(msg)` -/
  | new (msg : GoString)
deriving DecidableEq, Repr

/-- The `Error()` message of an error value. -/
def GoError.Error : GoError → GoString
  | .client e => e.msg
  | .errPodTerminated => lit "Pod terminated unexpectedly"
  | .channelError pid => lit "Channel error waiting for pod " ++ pid ++ lit ": \x7b <nil>\x7d"
  | .podErrored pid obj => lit "Pod " ++ pid ++ lit " errored: " ++ obj
  | .timedOut pid => lit "Timed out waiting for pod " ++ pid
  | .new msg => msg

/-- The log stream returned by `GetLogs(...).Stream()`: the bytes
`ioutil.ReadAll` reads from it, the error that read ends with (if any), and the
result of `Close`. -/
structure LogStream where
  content : GoString
  readErr : Option ClientError
  closeErr : Option ClientError
deriving DecidableEq, Repr

/-- The `typedv1.PodInterface` the source talks to, as a test double: the
result of each of the four calls the source makes. -/
structure PodInterface where
  Create : Pod → Except ClientError GoString
  Watch : GoString → Except ClientError ResultChan
  GetLogs : GoString → Except ClientError LogStream
  Delete : GoString → Option ClientError

/-- A call made on the client, on the watcher or on the log stream. -/
inductive Call
  | Create (pod : Pod)
  | Watch (fieldSelector : GoString)
  | Stop
  | GetLogs (pid : GoString)
  | ReadAll
  | Close
  | Delete (pid : GoString)
deriving DecidableEq, Repr

/-- Source `pvc` (the fields used by the volume operations). -/
structure pvc where
  EntryBase : EntryBase
  podi : PodInterface

/-- Source `(*pvc).createPod`. -/
def pvc.createPod (v : pvc) (cmd : List GoString) : Except GoError GoString × List Call :=
  let pod : Pod :=
    { GenerateName := lit "wash"
      Spec :=
        { Containers :=
            [{ Name := lit "busybox"
               Image := lit "busybox"
               Args := cmd
               VolumeMounts :=
                 [{ Name := v.EntryBase.Name
                    MountPath := mountpoint
                    ReadOnly := true }] }]
          RestartPolicy := .Never
          Volumes :=
            [{ Name := v.EntryBase.Name
               PersistentVolumeClaim :=
                 { ClaimName := v.EntryBase.Name
                   ReadOnly := true } }] } }
  match v.podi.Create pod with
  | .error err => (.error (.client err), [.Create pod])
  | .ok created => (.ok created, [.Create pod])

/-- The duration given to `time.After` in `waitForPod`. -/
def waitTimeout : Nat := 30 * 1000000000

/-- Whether the `select` of `waitForPod` takes the `time.After` case when the
next channel operation becomes ready after `gap` nanoseconds. -/
def timerWins (gap : Nat) (timerFirst : Bool) : Bool :=
  decide (waitTimeout < gap) || (decide (gap = waitTimeout) && timerFirst)

/-- The `for { select { ... } }` loop of `waitForPod`; every iteration starts a
new `time.After(30 * time.Second)`. The result is the returned error, `none`
for `nil`. -/
def waitLoop (pid : GoString) : List Arrival → ChanEnd → Option GoError
  | [], .silent => some (.timedOut pid)
  | [], .closed gap timerFirst =>
    if timerWins gap timerFirst then some (.timedOut pid) else some (.channelError pid)
  | a :: rest, fin =>
    if timerWins a.gap a.timerFirst then some (.timedOut pid)
    else
      match a.event with
      | .Modified .Succeeded => none
      | .Modified .Failed => some .errPodTerminated
      | .Modified _ => waitLoop pid rest fin
      | .Error obj => some (.podErrored pid obj)
      | _ => waitLoop pid rest fin

/-- Source `(*pvc).waitForPod`. -/
def pvc.waitForPod (v : pvc) (pid : GoString) : Option GoError × List Call :=
  let fieldSelector := lit "metadata.name=" ++ pid
  match v.podi.Watch fieldSelector with
  | .error err => (some (.client err), [.Watch fieldSelector])
  | .ok watcher =>
    -- `defer watcher.Stop()` runs when the loop returns
    (waitLoop pid watcher.events watcher.fin, [.Watch fieldSelector, .Stop])

/-- Source `(*pvc).runInTemporaryPod`. The deferred functions run, last
registered first, after the body: `output.Close()` when the log stream was
opened, then `v.podi.Delete(pid, ...)`. -/
def pvc.runInTemporaryPod (v : pvc) (cmd : List GoString) :
    Except GoError GoString × List Call :=
  match v.createPod cmd with
  | (.error err, t0) => (.error err, t0)
  | (.ok pid, t0) =>
    let deferredDelete : List Call := [.Delete pid]
    match v.waitForPod pid with
    | (err, tw) =>
      if err ≠ none ∧ err ≠ some .errPodTerminated then
        -- `return nil, err`, with `err` not nil
        (.error (err.getD .errPodTerminated), t0 ++ tw ++ deferredDelete)
      else
        match v.podi.GetLogs pid with
        | .error lerr => (.error (.client lerr), t0 ++ tw ++ [.GetLogs pid] ++ deferredDelete)
        | .ok output =>
          let deferredClose : List Call := [.Close]
          let tr := t0 ++ tw ++ [.GetLogs pid, .ReadAll] ++ deferredClose ++ deferredDelete
          match output.readErr with
          | some readErr => (.error (.client readErr), tr)
          | none =>
            if err = some .errPodTerminated then
              (.error (.new (stringsTrim output.content (lit "\n"))), tr)
            else (.ok output.content, tr)

/-- Source `(*pvc).VolumeList`. `volume.StatCmd` and `volume.StatParseAll` are
not part of the sources at hand and are taken as parameters. -/
def pvc.VolumeList {DirMap : Type} (StatCmd : GoString → Int → List GoString)
    (StatParseAll : GoString → GoString → GoString → Int → Except GoError DirMap)
    (v : pvc) (path : GoString) : Except GoError DirMap × List Call :=
  let maxdepth : Int := 10
  match v.runInTemporaryPod (StatCmd (mountpoint ++ path) maxdepth) with
  | (.error err, tr) => (.error err, tr)
  | (.ok output, tr) => (StatParseAll output mountpoint path maxdepth, tr)

/-- Source `(*pvc).VolumeRead`; the returned `bytes.NewReader(output)` is its
content. -/
def pvc.VolumeRead (v : pvc) (path : GoString) : Except GoError GoString × List Call :=
  match v.runInTemporaryPod [lit "cat", mountpoint ++ path] with
  | (.error err, tr) => (.error err, tr)
  | (.ok output, tr) => (.ok output, tr)

/-- Source `plugin.CleanupReader` as built by `VolumeStream`: the wrapped log
stream and the calls its `Cleanup` closure makes when it is run. -/
structure CleanupReader where
  ReadCloser : LogStream
  Cleanup : List Call
deriving DecidableEq, Repr

/-- Source `(*pvc).VolumeStream`. -/
def pvc.VolumeStream (v : pvc) (path : GoString) : Except GoError CleanupReader × List Call :=
  match v.createPod [lit "tail", lit "-f", mountpoint ++ path] with
  | (.error err, t0) => (.error err, t0)
  | (.ok pid, t0) =>
    let delete : List Call := [.Delete pid]
    match v.waitForPod pid with
    | (err, tw) =>
      if err ≠ none ∧ err ≠ some .errPodTerminated then
        -- `delete()` and `return nil, err`, with `err` not nil
        (.error (err.getD .errPodTerminated), t0 ++ tw ++ delete)
      else
        let podErr := err
        match v.podi.GetLogs pid with
        | .error err => (.error (.client err), t0 ++ tw ++ [.GetLogs pid] ++ delete)
        | .ok output =>
          if podErr = some .errPodTerminated then
            let tr := t0 ++ tw ++ [.GetLogs pid, .ReadAll, .Close] ++ delete
            match output.readErr with
            | some err => (.error (.client err), tr)
            | none => (.error (.new output.content), tr)
          else
            (.ok { ReadCloser := output, Cleanup := delete }, t0 ++ tw ++ [.GetLogs pid])

/-- Source `(*pvc).VolumeDelete`. -/
def pvc.VolumeDelete (v : pvc) (path : GoString) : Except GoError Bool × List Call :=
  match v.runInTemporaryPod [lit "rm", lit "-rf", mountpoint ++ path] with
  | (.error err, tr) => (.error err, tr)
  | (.ok _, tr) => (.ok true, tr)

/-- The pods deleted by a trace, in order. -/
def deletes : List Call → List GoString
  | [] => []
  | .Delete pid :: rest => pid :: deletes rest
  | _ :: rest => deletes rest

/-- The pods a trace asks the client to create, in order. -/
def createdPods : List Call → List Pod
  | [] => []
  | .Create pod :: rest => pod :: createdPods rest
  | _ :: rest => createdPods rest

/-- For every volume mount of every container of a pod: its mount path and
whether it is read-only. -/
def Pod.mounts (p : Pod) : List (GoString × Bool) :=
  p.Spec.Containers.flatMap fun c => c.VolumeMounts.map fun m => (m.MountPath, m.ReadOnly)

/-! ## `munge/interface.go` -/

/-- The Go types of the embedding: `bool`, `int`, `string`, `interface{}`,
slices and maps over them. -/
inductive GoType
  | bool
  | int
  | string
  | iface
  | slice (elem : GoType)
  | map (key : GoType) (elem : GoType)
deriving DecidableEq, Repr

/-- Go `reflect.Kind`. -/
inductive Kind
  | Invalid
  | Bool
  | Int
  | String
  | Interface
  | Slice
  | Map
  | Ptr
deriving DecidableEq, Repr

/-- Go `reflect.Type.Kind`. -/
def GoType.Kind : GoType → Kind
  | .bool => .Bool
  | .int => .Int
  | .string => .String
  | .iface => .Interface
  | .slice _ => .Slice
  | .map _ _ => .Map

/-- A key of a Go map: a value of a comparable basic type. -/
inductive GoKey
  | bool (b : Bool)
  | int (i : Int)
  | str (s : GoString)
deriving DecidableEq, Repr

/-- A Go value. `nil` is the nil `interface{}`; an `interface{}` slot of a
slice or map holds its dynamic value or `nil`. A slice is the list of its
elements (a nil slice and an empty slice are both the empty list); a map is
the list of its entries in the order `MapRange` visits them. -/
inductive GoVal
  | nil
  | bool (b : Bool)
  | int (i : Int)
  | str (s : GoString)
  | slice (elem : GoType) (xs : List GoVal)
  | map (key : GoType) (elem : GoType) (kvs : List (GoKey × GoVal))

/-- The dynamic type of a value; the nil interface has none. -/
def GoVal.typeOf : GoVal → Option GoType
  | .nil => none
  | .bool _ => some .bool
  | .int _ => some .int
  | .str _ => some .string
  | .slice elem _ => some (.slice elem)
  | .map key elem _ => some (.map key elem)

/-- Go `reflect.Zero(t)` as a value. -/
def GoType.zero : GoType → GoVal
  | .bool => .bool false
  | .int => .int 0
  | .string => .str []
  | .iface => .nil
  | .slice elem => .slice elem []
  | .map key elem => .map key elem []

/-- Go `reflect.Value`: the zero Value, a Value of a concrete type, or a Value
of type `interface{}` (an element of a `[]interface{}` or of a
`map[K]interface{}`) together with what it holds. -/
inductive Value
  | zero
  | concrete (val : GoVal)
  | iface (val : GoVal)

/-- Go `reflect.ValueOf(i)`: the zero Value for a nil interface. -/
def ValueOf (i : GoVal) : Value :=
  match i with
  | .nil => .zero
  | i => .concrete i

/-- Go `Value.Interface()`: panics (`none`) on the zero Value; on a Value of
type `interface{}` it returns what the interface holds. -/
def Value.Interface : Value → Option GoVal
  | .zero => none
  | .concrete val => some val
  | .iface val => some val

/-- Go `Value.Type()`: panics (`none`) on the zero Value. -/
def Value.Type : Value → Option GoType
  | .zero => none
  | .concrete val => val.typeOf
  | .iface _ => some .iface

/-- Go `Value.Kind()`: `Invalid` on the zero Value. -/
def Value.Kind (v : Value) : Kind :=
  match v.Type with
  | none => .Invalid
  | some t => t.Kind

/-- What a Value stores in the slot it is `Set` into. -/
def Value.stored : Value → GoVal
  | .zero => .nil
  | .concrete val => val
  | .iface val => val

/-- The Value of an element of static type `elem` read out of a slice or map. -/
def elemValue (elem : GoType) (x : GoVal) : Value :=
  if elem = .iface then .iface x else .concrete x

/-- Go `Type.ConvertibleTo` on the types of the embedding: identical types,
any type to `interface{}`, and `int` to `string`. -/
def ConvertibleTo (src dst : GoType) : Bool :=
  decide (src = dst) || decide (dst = .iface) || (decide (src = .int) && decide (dst = .string))

/-- Go `Value.Convert(dt)` for a Value whose type is convertible to `dt`. -/
def Value.Convert (v : Value) (dt : GoType) : Value :=
  match dt, v.stored with
  | .iface, val => .iface val
  | .string, .int i => .concrete (.str (runeToString i))
  | _, val => .concrete val

/-- The errors of `ToType`. -/
inductive ToTypeError
  /-- Go `&json.InvalidUnmarshalError` -/
  | invalidUnmarshal
  /-- Go `fmt.Errorf("cannot convert %v to %v", v.Type(), dt)` -/
  | cannotConvert (src : GoType) (dst : GoType)
deriving DecidableEq, Repr

/-- Outcome of a fallible Go function returning `(value, error)`: `ok` with a
nil error, `err` with the value returned next to the error, or a panic. -/
inductive Res (α : Type)
  | ok (a : α)
  | err (a : α) (e : ToTypeError)
  | panic

/-- Go `Value.SetMapIndex(key, elem)` on the entries of a map. -/
def setMapIndex : List (GoKey × GoVal) → GoKey → GoVal → List (GoKey × GoVal)
  | [], k, x => [(k, x)]
  | (k0, x0) :: rest, k, x =>
    if k0 = k then (k0, x) :: rest else (k0, x0) :: setMapIndex rest k x

/-- The slice loop of `toType`: `src` are the elements `v.Index(i)`,
`v.Index(i+1)`, ... still to convert and `destSlice` the destination so far;
`conv` is `toType(_, dt.Elem())`. -/
def sliceLoop (conv : Value → Res Value) (srcElem dstElem : GoType) :
    List GoVal → Nat → List GoVal → Res Value
  | [], _, destSlice => .ok (.concrete (.slice dstElem destSlice))
  | x :: src, i, destSlice =>
    match conv (elemValue srcElem x) with
    | .ok newEntry =>
      -- `destSlice.Index(i).Set(newEntry)` panics unless the types agree
      if newEntry.Type = some dstElem then
        sliceLoop conv srcElem dstElem src (i + 1) (destSlice.set i newEntry.stored)
      else .panic
    | .err _ e => .err (.concrete (.slice dstElem destSlice)) e
    | .panic => .panic

/-- The map loop of `toType`: `src` are the entries `MapRange` has still to
visit and `destMap` the destination so far; `conv` is `toType(_, dt.Elem())`. -/
def mapLoop (conv : Value → Res Value) (srcKey srcElem dstKey dstElem : GoType) :
    List (GoKey × GoVal) → List (GoKey × GoVal) → Res Value
  | [], destMap => .ok (.concrete (.map dstKey dstElem destMap))
  | (k, x) :: src, destMap =>
    match conv (elemValue srcElem x) with
    | .ok newEntry =>
      -- `destMap.SetMapIndex(iter.Key(), newEntry)` panics unless key and
      -- element are assignable to the key and element type of the destination
      if (srcKey = dstKey ∨ dstKey = .iface) ∧ newEntry.Type = some dstElem then
        mapLoop conv srcKey srcElem dstKey dstElem src (setMapIndex destMap k newEntry.stored)
      else .panic
    | .err _ e => .err (.concrete (.map dstKey dstElem destMap)) e
    | .panic => .panic

/-- The last statement of `toType`:
`return newV, fmt.Errorf("cannot convert %v to %v", v.Type(), dt)`. -/
def cannotConvert (v newV : Value) (dt : GoType) : Res Value :=
  match v.Type with
  | some vT => .err newV (.cannotConvert vT dt)
  | none => .panic

/-- Source `toType`. The recursion is on the destination type `dt`. -/
def toType (v : Value) (dt : GoType) : Res Value :=
  match v.Interface with
  | none => .panic
  | some i =>
    let newV := ValueOf i
    match newV.Type with
    | none => .panic
    | some newT =>
      if ConvertibleTo newT dt then .ok (newV.Convert dt)
      else
        match dt with
        | .slice dstElem =>
          match v with
          | .concrete (.slice srcElem xs) =>
            sliceLoop (fun x => toType x dstElem) srcElem dstElem xs 0
              (List.replicate xs.length dstElem.zero)
          | _ => cannotConvert v newV (.slice dstElem)
        | .map dstKey dstElem =>
          match v with
          | .concrete (.map srcKey srcElem kvs) =>
            mapLoop (fun x => toType x dstElem) srcKey srcElem dstKey dstElem kvs []
          | _ => cannotConvert v newV (.map dstKey dstElem)
        | dt => cannotConvert v newV dt

/-- The argument `t` of `ToType`: a nil interface, a value that is no pointer,
a nil pointer, or a pointer to a variable of type `elem` holding `pointee`. -/
inductive Target
  | nilInterface
  | notPointer (val : GoVal)
  | nilPointer (elem : GoType)
  | pointer (elem : GoType) (pointee : GoVal)

/-- Source `ToType`: the returned error (`none` for nil) and `t` after the
call; the outer `none` is a panic. -/
def ToType (v : GoVal) (t : Target) : Option (Option ToTypeError × Target) :=
  match t with
  | .nilInterface => none
  | .notPointer val => some (some .invalidUnmarshal, .notPointer val)
  | .nilPointer elem => some (some .invalidUnmarshal, .nilPointer elem)
  | .pointer elem pointee =>
    match toType (ValueOf v) elem with
    | .err _ e => some (some e, .pointer elem pointee)
    | .panic => none
    | .ok newVal =>
      if newVal.Type = some elem then some (none, .pointer elem newVal.stored) else none

/-! ## `plugin/aws/ec2InstanceConsoleOutput.go` and `plugin/gcp/computeInstConsoleOutput.go` -/

/-- Go slice expression `s[off:]` with an `int64` offset: panics (`none`) when
`off` is negative or greater than `len(s)`. -/
def sliceFrom (s : GoString) (off : Int) : Option GoString :=
  if 0 ≤ off ∧ off ≤ s.length then some (s.drop off.toNat) else none

/-- Go builtin `copy(dst, src)`: the first `min(len(dst), len(src))` bytes of
`src` overwrite the start of `dst`; the result is `dst` after the copy and the
number of bytes copied. -/
def copy (dst src : GoString) : GoString × Nat :=
  let n := min dst.length src.length
  (src.take n ++ dst.drop n, n)

/-- What a `Read(ctx, p, off)` leaves behind: the returned count and error, and
the buffer `p` after the call. -/
structure ReadResult where
  n : Nat
  err : Option ClientError
  p : GoString
deriving DecidableEq, Repr

/-- Modelled from the spec: the `attributes` of an entry, of which `Read` only
sets the optional `size` (through `Attributes().SetSize`, which is not part of
the sources at hand); `none` is the explicitly unknown size. -/
structure EntryAttributes where
  size : Option Nat
deriving DecidableEq, Repr

/-- Source `consoleOutput`, the value of `cachedConsoleOutput`: `mtime` (as a
count of nanoseconds) and `content`. -/
structure consoleOutput where
  mtime : Int
  content : GoString
deriving DecidableEq, Repr

/-- Source `ec2InstanceConsoleOutput`. The field `inst` is the instance as
`Read` uses it: the result of `inst.cachedConsoleOutput(ctx, latest)`, a method
that is not part of the sources at hand. -/
structure ec2InstanceConsoleOutput where
  EntryBase : EntryBase
  attributes : EntryAttributes
  inst : Bool → Except ClientError consoleOutput
  latest : Bool
  content : GoString

/-- Source `(*ec2InstanceConsoleOutput).Read`: the result and the receiver
after the call; `none` is the panic of an out-of-range slice expression. -/
def ec2InstanceConsoleOutput.Read (cl : ec2InstanceConsoleOutput) (p : GoString) (off : Int) :
    Option (ReadResult × ec2InstanceConsoleOutput) :=
  match cl.inst cl.latest with
  | .error err => some (⟨0, some err, p⟩, cl)
  | .ok output =>
    let cl := { cl with attributes := { size := some output.content.length } }
    match sliceFrom output.content off with
    | none => none
    | some src => some (⟨(copy p src).2, none, (copy p src).1⟩, cl)

/-- Source `computeInstanceConsoleOutput`. The field `service` is the project
service as `Read` uses it: the result of
`Instances.GetSerialPortOutput(...).Context(ctx).Do()`, its `Contents` or an
error. -/
structure computeInstanceConsoleOutput where
  EntryBase : EntryBase
  service : Except ClientError GoString
  console : GoString

/-- Source `(*computeInstanceConsoleOutput).Read`: the result and the receiver
after the call; `none` is the panic of an out-of-range slice expression. -/
def computeInstanceConsoleOutput.Read (cl : computeInstanceConsoleOutput) (p : GoString)
    (off : Int) : Option (ReadResult × computeInstanceConsoleOutput) :=
  let fetched : Except ClientError computeInstanceConsoleOutput :=
    if cl.console = lit "" then
      match cl.service with
      | .error err => .error err
      | .ok contents => .ok { cl with console := contents }
    else .ok cl
  match fetched with
  | .error err => some (⟨0, some err, p⟩, cl)
  | .ok cl =>
    match sliceFrom cl.console off with
    | none => none
    | some src => some (⟨(copy p src).2, none, (copy p src).1⟩, cl)

/-- Whether a watch event ends the wait of `waitForPod`: the pod Succeeded, the
pod Failed, or a watch `Error` event. -/
def WatchEvent.isTerminal : WatchEvent → Bool
  | .Modified .Succeeded => true
  | .Modified .Failed => true
  | .Error _ => true
  | _ => false

/-- In the words of the specification: a terminal status (a terminal event or
the closing of the channel) arrives within `limit` nanoseconds of the start of
the wait. -/
def terminalWithin : Nat → List Arrival → ChanEnd → Bool
  | _, [], .silent => false
  | limit, [], .closed gap _ => decide (gap ≤ limit)
  | limit, a :: rest, fin =>
    decide (a.gap ≤ limit) && (a.event.isTerminal || terminalWithin (limit - a.gap) rest fin)

/-- The next channel operation (an event or the close) takes more than the
timeout to become ready. -/
def idleTimeout : List Arrival → ChanEnd → Bool
  | [], .silent => true
  | [], .closed gap _ => decide (waitTimeout < gap)
  | a :: _, _ => decide (waitTimeout < a.gap)

/-- In the words of the specification: `s` with only its trailing newline
characters removed. -/
def trimTrailingNewlines (s : GoString) : GoString := stringsTrimRight s (lit "\n")

/-! ## Sample inputs -/

/-- A client on which every call succeeds: the pod is named `wash-x7`, its
watch delivers `events` and then stays silent, and its log is `log`. -/
def samplePodi (events : List Arrival) (log : GoString) : PodInterface :=
  { Create := fun _ => .ok (lit "wash-x7")
    Watch := fun _ => .ok { events := events, fin := .silent }
    GetLogs := fun _ => .ok { content := log, readErr := none, closeErr := none }
    Delete := fun _ => none }

/-- A persistent volume claim named `claim` on the given client. -/
def samplePvc (podi : PodInterface) : pvc :=
  { EntryBase :=
      { name := lit "claim"
        canonicalName := lit "claim"
        slashReplacementCh := 35
        washID := []
        ttl := fun _ => 15 * Second }
    podi := podi }

/-- The pod is Pending after one second and Failed after two. -/
def failedEvents : List Arrival :=
  [⟨1000000000, false, .Modified .Pending⟩, ⟨1000000000, false, .Modified .Failed⟩]

/-- The pod is Running after one second and Succeeded after two. -/
def succeededEvents : List Arrival :=
  [⟨1000000000, false, .Modified .Running⟩, ⟨1000000000, false, .Modified .Succeeded⟩]

/-- The pod is Running after 20 seconds and Succeeded 20 seconds later. -/
def slowEvents : List Arrival :=
  [⟨20000000000, false, .Modified .Running⟩, ⟨20000000000, false, .Modified .Succeeded⟩]

/-- The pod is Running after one second; nothing follows for 31 seconds. -/
def stalledEvents : List Arrival :=
  [⟨1000000000, false, .Modified .Running⟩, ⟨31000000000, false, .Modified .Succeeded⟩]

/-- An entry with three different TTLs, to observe `DisableCachingFor`. -/
def sampleEntry : EntryBase :=
  { name := lit "a/b"
    canonicalName := lit "a#b"
    slashReplacementCh := 35
    washID := lit "/docker/a#b"
    ttl := fun i => (i.val + 1) * Second }

/-- The console output `boot ok` followed by a newline, eight bytes. -/
def sampleConsole : GoString := lit "boot ok\n"

/-- An EC2 console entry whose cached console output is `sampleConsole`. -/
def sampleEC2Console : ec2InstanceConsoleOutput :=
  { EntryBase := sampleEntry
    attributes := { size := none }
    inst := fun _ => .ok { mtime := 0, content := sampleConsole }
    latest := false
    content := [] }

/-- A GCP console entry that has not fetched its output yet; the service
answers with `sampleConsole`. -/
def sampleGCPConsole : computeInstanceConsoleOutput :=
  { EntryBase := sampleEntry
    service := .ok sampleConsole
    console := [] }

/-! ## Properties of `plugin/entryBase.go` -/

theorem lit_slash : lit "/" = [47] := by decide

theorem lit_empty : lit "" = [] := by decide

/-- Replacing a one-byte `old` rewrites the string byte by byte. -/
theorem replaceLoop_single (b : Nat) (new s : GoString) :
    replaceLoop [b] new s 0 = s.flatMap (fun c => if c = b then new else [c]) := by
  induction s with
  | nil => simp [replaceLoop]
  | cons c cs ih =>
    by_cases h : c = b
    · subst h
      simp [replaceLoop, ih, List.isPrefixOf]
    · have h2 : ¬ b = c := fun e => h e.symm
      simp [replaceLoop, ih, List.isPrefixOf, h, h2]

/-- No byte of a multi-byte or substituted encoding is `/`. -/
theorem encodeRune_no_slash (r : Nat) (h : r ≠ 47) : 47 ∉ encodeRune r := by
  unfold encodeRune
  split_ifs <;> simp <;> omega

theorem runeToString_no_slash (ch : Int) (h : ch ≠ 47) : 47 ∉ runeToString ch := by
  unfold runeToString
  split_ifs with hc
  · exact encodeRune_no_slash _ (by decide)
  · apply encodeRune_no_slash
    omega

/-- The loop of `newEntryBase` and of `DisableDefaultCaching` never panics and
only touches `ttl`. -/
theorem setAll_eq (e : EntryBase) (d : Duration) :
    ttlRange.foldlM (fun e op => e.SetTTLOf op d) e = some { e with ttl := fun _ => d } := by
  have h0 : ttlIndex 0 = some 0 := by decide
  have h1 : ttlIndex 1 = some 1 := by decide
  have h2 : ttlIndex 2 = some 2 := by decide
  simp only [ttlRange, List.foldlM, EntryBase.SetTTLOf, h0, h1, h2, Option.map_some',
    Option.bind_eq_bind, Option.some_bind, Option.pure_def]
  congr 2
  funext i
  fin_cases i <;> simp [Function.update]

theorem newEntryBase_eq (name : GoString) (ch : Int) :
    newEntryBase name ch = some
      { name := name
        slashReplacementCh := ch
        canonicalName := stringsReplaceAll name (lit "/") (runeToString ch)
        washID := []
        ttl := fun _ => 15 * Second } := by
  unfold newEntryBase
  simp only [setAll_eq]

theorem NewEntryWithSlashReplacementChar_eq (name : GoString) (ch : Int) (h : name ≠ lit "") :
    NewEntryWithSlashReplacementChar name ch = some
      { name := name
        slashReplacementCh := ch
        canonicalName := stringsReplaceAll name (lit "/") (runeToString ch)
        washID := []
        ttl := fun _ => 15 * Second } := by
  rw [NewEntryWithSlashReplacementChar, if_neg h, newEntryBase_eq]

/-- C3 (as stated) fails: with `/` itself as the substitute character the
canonical name of `a/b` still contains the path separator. -/
theorem C3_cname_keeps_slash_when_substitute_is_slash :
    lit "a/b" ≠ lit "" ∧
      ∃ e, NewEntryWithSlashReplacementChar (lit "a/b") 47 = some e ∧ 47 ∈ e.cname := by
  refine ⟨by decide, ?_⟩
  have h : lit "a/b" = [97, 47, 98] := by decide
  refine ⟨_, NewEntryWithSlashReplacementChar_eq _ _ (by decide), ?_⟩
  simp only [EntryBase.cname, h, lit_slash]
  decide

/-- C3 (amended): for every non-empty display name and every substitute
character other than `/`, `NewEntryWithSlashReplacementChar` returns an entry
whose canonical name (`cname`) contains no path separator `/`. -/
theorem C3_cname_has_no_slash (name : GoString) (ch : Int)
    (hname : name ≠ lit "") (hch : ch ≠ 47) :
    ∃ e, NewEntryWithSlashReplacementChar name ch = some e ∧ 47 ∉ e.cname := by
  refine ⟨_, NewEntryWithSlashReplacementChar_eq name ch hname, ?_⟩
  have hnew := runeToString_no_slash ch hch
  simp only [EntryBase.cname, stringsReplaceAll, lit_slash, replaceLoop_single]
  simp only [List.cons_ne_nil, if_false, List.mem_flatMap, not_exists, not_and]
  intro c _ hc
  by_cases h : c = 47
  · rw [if_pos h] at hc
    exact hnew hc
  · rw [if_neg h] at hc
    simp only [List.mem_singleton] at hc
    exact h hc.symm

/-- C3 witness: the entry `a/b` built with the substitute `#`. -/
theorem C3_cname_has_no_slash_witness :
    ∃ e, NewEntryWithSlashReplacementChar (lit "a/b") 35 = some e ∧ 47 ∉ e.cname :=
  C3_cname_has_no_slash (lit "a/b") 35 (by decide) (by decide)

/-- C4: `NewEntryWithSlashReplacementChar` and `NewEntry` fail (panic) exactly
on the empty display name; on every other name they return an entry whose
`Name()` is the name passed in, byte for byte. -/
theorem C4_construction_fails_iff_empty_name (name : GoString) (ch : Int) :
    (NewEntryWithSlashReplacementChar name ch = none ↔ name = lit "") ∧
    (NewEntry name = none ↔ name = lit "") ∧
    (name ≠ lit "" →
      (∃ e, NewEntryWithSlashReplacementChar name ch = some e ∧ e.Name = name) ∧
      (∃ e, NewEntry name = some e ∧ e.Name = name)) := by
  refine ⟨?_, ?_, ?_⟩
  · by_cases h : name = lit ""
    · simp [NewEntryWithSlashReplacementChar, h]
    · simp [NewEntryWithSlashReplacementChar, h, newEntryBase_eq]
  · by_cases h : name = lit ""
    · simp [NewEntry, NewEntryWithSlashReplacementChar, h]
    · simp [NewEntry, NewEntryWithSlashReplacementChar, h, newEntryBase_eq]
  · intro h
    constructor
    · exact ⟨_, NewEntryWithSlashReplacementChar_eq name ch h, rfl⟩
    · exact ⟨_, NewEntryWithSlashReplacementChar_eq name 35 h, rfl⟩

/-- C4 at the names `""` and `a/b`: the first is refused, the second is kept
with its slash. -/
theorem C4_construction_examples :
    NewEntry (lit "") = none ∧ (NewEntry (lit "a/b")).map EntryBase.Name = some (lit "a/b") := by
  have h := C4_construction_fails_iff_empty_name (lit "a/b") 35
  obtain ⟨e, he, hn⟩ := (h.2.2 (by decide)).2
  refine ⟨?_, ?_⟩
  · exact (C4_construction_fails_iff_empty_name (lit "") 35).2.1.mpr rfl
  · rw [he, Option.map_some', hn]

/-- C8: every entry freshly built by `NewEntryWithSlashReplacementChar` (hence
by `NewEntry`) has a TTL of exactly 15 seconds, 15000000000 ns, for each of
`List`, `Open` and `Metadata`. -/
theorem C8_fresh_entry_ttl_is_15s (name : GoString) (ch : Int) (e : EntryBase)
    (h : NewEntryWithSlashReplacementChar name ch = some e ∨ NewEntry name = some e) :
    e.getTTLOf actionOpCode.List = some 15000000000 ∧
    e.getTTLOf actionOpCode.Open = some 15000000000 ∧
    e.getTTLOf actionOpCode.Metadata = some 15000000000 := by
  have key : ∀ c, NewEntryWithSlashReplacementChar name c = some e → e.ttl = fun _ => 15 * Second := by
    intro c hc
    unfold NewEntryWithSlashReplacementChar at hc
    split_ifs at hc
    rw [newEntryBase_eq] at hc
    cases hc
    rfl
  have httl : e.ttl = fun _ => 15 * Second := by
    rcases h with h | h
    · exact key ch h
    · exact key 35 h
  have h0 : ttlIndex 0 = some 0 := by decide
  have h1 : ttlIndex 1 = some 1 := by decide
  have h2 : ttlIndex 2 = some 2 := by decide
  have hs : (15 : Int) * Second = 15000000000 := by decide
  simp [EntryBase.getTTLOf, actionOpCode.List, actionOpCode.Open, actionOpCode.Metadata,
    h0, h1, h2, httl, hs]

/-- C8 witness: the entry `NewEntry("volumes")` of the docker plugin. -/
theorem C8_fresh_entry_ttl_is_15s_witness :
    ∃ e, NewEntry (lit "volumes") = some e ∧
      e.getTTLOf actionOpCode.List = some 15000000000 ∧
      e.getTTLOf actionOpCode.Open = some 15000000000 ∧
      e.getTTLOf actionOpCode.Metadata = some 15000000000 := by
  have he := NewEntryWithSlashReplacementChar_eq (lit "volumes") 35 (by decide)
  exact ⟨_, he, C8_fresh_entry_ttl_is_15s (lit "volumes") 35 _ (Or.inr he)⟩

theorem ttlIndex_inj (a b : Int) (i : Fin 3) (ha : ttlIndex a = some i) (hb : ttlIndex b = some i) :
    a = b := by
  unfold ttlIndex at ha hb
  split_ifs at ha hb with h1 h2
  simp only [Option.some.injEq, Fin.ext_iff] at ha hb
  omega

theorem ttlIndex_of_op (op : Int) (hop : op = 0 ∨ op = 1 ∨ op = 2) : ∃ i, ttlIndex op = some i := by
  rcases hop with h | h | h <;> subst h
  · exact ⟨0, by decide⟩
  · exact ⟨1, by decide⟩
  · exact ⟨2, by decide⟩

/-- C9: for every entry and every `op` among `List`, `Open` and `Metadata`,
`DisableCachingFor(op)` returns normally, sets the TTL of `op` to the sentinel
`-1` and leaves the TTL of every other action, the name, the canonical name and
the ID as they were; `DisableDefaultCaching` returns normally and leaves the
TTL of all three actions at `-1` (name, canonical name and ID unchanged). -/
theorem C9_disable_caching_frame (e : EntryBase) (op : actionOpCode)
    (hop : op = actionOpCode.List ∨ op = actionOpCode.Open ∨ op = actionOpCode.Metadata) :
    (∃ e1, e.DisableCachingFor op = some e1 ∧
      e1.getTTLOf op = some (-1) ∧
      (∀ other : actionOpCode, other ≠ op → e1.getTTLOf other = e.getTTLOf other) ∧
      e1.Name = e.Name ∧ e1.cname = e.cname ∧ e1.id = e.id) ∧
    (∃ e2, e.DisableDefaultCaching = some e2 ∧
      e2.getTTLOf actionOpCode.List = some (-1) ∧
      e2.getTTLOf actionOpCode.Open = some (-1) ∧
      e2.getTTLOf actionOpCode.Metadata = some (-1) ∧
      e2.Name = e.Name ∧ e2.cname = e.cname ∧ e2.id = e.id) := by
  constructor
  · obtain ⟨i, hi⟩ := ttlIndex_of_op op hop
    refine ⟨{ e with ttl := Function.update e.ttl i (-1) }, ?_, ?_, ?_, rfl, rfl, rfl⟩
    · simp [EntryBase.DisableCachingFor, EntryBase.SetTTLOf, hi]
    · simp [EntryBase.getTTLOf, hi]
    · intro other hne
      unfold EntryBase.getTTLOf
      cases hj : ttlIndex other with
      | none => rfl
      | some j =>
        have hji : j ≠ i := by
          intro h
          subst h
          exact hne (ttlIndex_inj other op j hj hi)
        simp [Function.update, hji]
  · refine ⟨{ e with ttl := fun _ => -1 }, ?_, ?_, ?_, ?_, rfl, rfl, rfl⟩
    · unfold EntryBase.DisableDefaultCaching EntryBase.DisableCachingFor
      exact setAll_eq e (-1)
    · simp [EntryBase.getTTLOf, actionOpCode.List, (by decide : ttlIndex 0 = some 0)]
    · simp [EntryBase.getTTLOf, actionOpCode.Open, (by decide : ttlIndex 1 = some 1)]
    · simp [EntryBase.getTTLOf, actionOpCode.Metadata, (by decide : ttlIndex 2 = some 2)]

/-- C9 witness: disabling `Open` on an entry with TTLs of 1, 2 and 3 seconds. -/
theorem C9_disable_caching_frame_witness :
    (∃ e1, sampleEntry.DisableCachingFor actionOpCode.Open = some e1 ∧
      e1.getTTLOf actionOpCode.Open = some (-1) ∧
      (∀ other : actionOpCode, other ≠ actionOpCode.Open →
        e1.getTTLOf other = sampleEntry.getTTLOf other) ∧
      e1.Name = sampleEntry.Name ∧ e1.cname = sampleEntry.cname ∧ e1.id = sampleEntry.id) ∧
    (∃ e2, sampleEntry.DisableDefaultCaching = some e2 ∧
      e2.getTTLOf actionOpCode.List = some (-1) ∧
      e2.getTTLOf actionOpCode.Open = some (-1) ∧
      e2.getTTLOf actionOpCode.Metadata = some (-1) ∧
      e2.Name = sampleEntry.Name ∧ e2.cname = sampleEntry.cname ∧ e2.id = sampleEntry.id) :=
  C9_disable_caching_frame sampleEntry actionOpCode.Open (Or.inr (Or.inl rfl))


/-! ## Properties of `plugin/kubernetes/pvc.go` -/

theorem lit_newline : lit "\n" = [10] := by decide

theorem head_dropWhile_not (p : Nat → Bool) (l : List Nat) (x : Nat)
    (h : (l.dropWhile p).head? = some x) : p x = false := by
  induction l with
  | nil => simp at h
  | cons c cs ih =>
    by_cases hc : p c = true
    · rw [List.dropWhile_cons_of_pos hc] at h
      exact ih h
    · rw [List.dropWhile_cons_of_neg hc] at h
      simp only [List.head?_cons, Option.some.injEq] at h
      subst h
      simpa using hc

theorem takeWhile_newline (l : List Nat) :
    l.takeWhile (fun c => decide (c ∈ [10])) =
      List.replicate (l.takeWhile (fun c => decide (c ∈ [10]))).length 10 := by
  rw [List.eq_replicate_iff]
  refine ⟨rfl, ?_⟩
  intro b hb
  have := List.mem_takeWhile_imp hb
  simpa using this

/-- What `strings.Trim(s, "\n")` does: `s` is the result between a run of
leading and a run of trailing newlines, and the result neither starts nor ends
with a newline. -/
theorem stringsTrim_newline_spec (s : GoString) :
    ∃ a b, s = List.replicate a 10 ++ stringsTrim s (lit "\n") ++ List.replicate b 10 ∧
      (stringsTrim s (lit "\n")).head? ≠ some 10 ∧
      (stringsTrim s (lit "\n")).getLast? ≠ some 10 := by
  rw [lit_newline]
  set p : Nat → Bool := fun c => decide (c ∈ [10]) with hp
  set t := s.dropWhile p with ht
  set m := (t.reverse.dropWhile p).reverse with hm
  have htrim : stringsTrim s [10] = m := rfl
  have hs : s = s.takeWhile p ++ t := (List.takeWhile_append_dropWhile p s).symm
  have htr : t = m ++ (t.reverse.takeWhile p).reverse := by
    have h := List.takeWhile_append_dropWhile p t.reverse
    have h2 := congrArg List.reverse h
    rw [List.reverse_append, List.reverse_reverse] at h2
    exact h2.symm
  refine ⟨(s.takeWhile p).length, (t.reverse.takeWhile p).length, ?_, ?_, ?_⟩
  · rw [htrim]
    have e1 := takeWhile_newline s
    have e3 : (t.reverse.takeWhile p).reverse = List.replicate (t.reverse.takeWhile p).length 10 := by
      rw [List.eq_replicate_iff]
      refine ⟨List.length_reverse _, ?_⟩
      intro b hb
      have := List.mem_takeWhile_imp (List.mem_reverse.mp hb)
      simpa [hp] using this
    rw [← e3, ← e1, List.append_assoc, ← htr]
    exact hs
  · rw [htrim]
    intro h
    have h2 : t.head? = some 10 := by
      rw [htr]
      cases hm2 : m with
      | nil => rw [hm2] at h; simp at h
      | cons c cs => rw [hm2] at h; simpa using h
    have := head_dropWhile_not p s 10 h2
    simp [hp] at this
  · rw [htrim]
    intro h
    have h2 : (t.reverse.dropWhile p).head? = some 10 := by
      rw [← List.getLast?_reverse, ← hm]
      exact h
    have := head_dropWhile_not p t.reverse 10 h2
    simp [hp] at this

theorem deletes_append (t1 t2 : List Call) : deletes (t1 ++ t2) = deletes t1 ++ deletes t2 := by
  induction t1 with
  | nil => rfl
  | cons c cs ih => cases c <;> simp [deletes, ih]

theorem createdPods_append (t1 t2 : List Call) :
    createdPods (t1 ++ t2) = createdPods t1 ++ createdPods t2 := by
  induction t1 with
  | nil => rfl
  | cons c cs ih => cases c <;> simp [createdPods, ih]

/-- The trace of `createPod` is the one `Create` call, for a pod whose only
container runs `cmd` with the claim mounted read-only on the mountpoint. -/
theorem createPod_trace (v : pvc) (cmd : List GoString) :
    (∃ pod, (v.createPod cmd).2 = [.Create pod]) ∧
    deletes (v.createPod cmd).2 = [] ∧
    (createdPods (v.createPod cmd).2).map Pod.mounts = [[(mountpoint, true)]] ∧
    (createdPods (v.createPod cmd).2).map
      (fun pod => pod.Spec.Containers.map (fun c => c.Args)) = [[cmd]] ∧
    (createdPods (v.createPod cmd).2).map
      (fun pod => pod.Spec.Volumes.map (fun vol => vol.PersistentVolumeClaim.ReadOnly)) =
        [[true]] := by
  unfold pvc.createPod
  simp only []
  split <;> exact ⟨⟨_, rfl⟩, by simp [deletes, createdPods, Pod.mounts]⟩

/-- The trace of `waitForPod` holds no `Create` and no `Delete`. -/
theorem waitForPod_trace (v : pvc) (pid : GoString) :
    deletes (v.waitForPod pid).2 = [] ∧ createdPods (v.waitForPod pid).2 = [] := by
  unfold pvc.waitForPod
  simp only []
  split <;> simp [deletes, createdPods]

/-- The shape of every trace of `runInTemporaryPod`. -/
theorem runInTemporaryPod_trace (v : pvc) (cmd : List GoString) :
    (∀ err, (v.createPod cmd).1 = .error err →
      (v.runInTemporaryPod cmd).2 = (v.createPod cmd).2) ∧
    (∀ pid, (v.createPod cmd).1 = .ok pid →
      ∃ mid, (v.runInTemporaryPod cmd).2 = (v.createPod cmd).2 ++ mid ++ [.Delete pid] ∧
        deletes mid = [] ∧ createdPods mid = []) := by
  unfold pvc.runInTemporaryPod
  rcases hC : v.createPod cmd with ⟨r, t0⟩
  cases r with
  | error e => simp
  | ok pid =>
    refine ⟨by simp, ?_⟩
    intro pid2 hp
    simp only [Except.ok.injEq] at hp
    subst hp
    obtain ⟨hw1, hw2⟩ := waitForPod_trace v pid
    rcases hW : v.waitForPod pid with ⟨err, tw⟩
    rw [hW] at hw1 hw2
    simp only at hw1 hw2
    simp only [hW]
    split_ifs
    · exact ⟨tw, by simp, hw1, hw2⟩
    · split
      · exact ⟨tw ++ [.GetLogs pid], by simp, by simp [deletes_append, hw1, deletes],
          by simp [createdPods_append, hw2, createdPods]⟩
      · split <;>
          exact ⟨tw ++ [.GetLogs pid, .ReadAll, .Close], by simp,
            by simp [deletes_append, hw1, deletes],
            by simp [createdPods_append, hw2, createdPods]⟩
    · split
      · exact ⟨tw ++ [.GetLogs pid], by simp, by simp [deletes_append, hw1, deletes],
          by simp [createdPods_append, hw2, createdPods]⟩
      · split <;>
          exact ⟨tw ++ [.GetLogs pid, .ReadAll, .Close], by simp,
            by simp [deletes_append, hw1, deletes],
            by simp [createdPods_append, hw2, createdPods]⟩

/-- What `runInTemporaryPod` returns once the pod has Failed and its log was
opened and read. -/
theorem runInTemporaryPod_failed (v : pvc) (cmd : List GoString) (pid : GoString)
    (output : LogStream)
    (hcreate : (v.createPod cmd).1 = .ok pid)
    (hwait : (v.waitForPod pid).1 = some .errPodTerminated)
    (hlogs : v.podi.GetLogs pid = .ok output)
    (hread : output.readErr = none) :
    (v.runInTemporaryPod cmd).1 = .error (.new (stringsTrim output.content (lit "\n"))) := by
  unfold pvc.runInTemporaryPod
  rcases hC : v.createPod cmd with ⟨r, t0⟩
  rw [hC] at hcreate
  simp only at hcreate
  subst hcreate
  rcases hW : v.waitForPod pid with ⟨err, tw⟩
  rw [hW] at hwait
  simp only at hwait
  subst hwait
  simp [hlogs, hread, hW]

/-- C1 (as stated) fails: the pod of `cat /mnt/f` Failed with the log
`"\nno such file\n"`; the message of the returned error is `"no such file"`,
not the log with only its trailing newline removed (`"\nno such file"`). -/
theorem C1_leading_newlines_are_removed_too :
    (pvc.createPod (samplePvc (samplePodi failedEvents (lit "\nno such file\n")))
        [lit "cat", mountpoint ++ lit "/f"]).1 = .ok (lit "wash-x7") ∧
    (pvc.waitForPod (samplePvc (samplePodi failedEvents (lit "\nno such file\n")))
        (lit "wash-x7")).1 = some .errPodTerminated ∧
    (pvc.VolumeRead (samplePvc (samplePodi failedEvents (lit "\nno such file\n")))
        (lit "/f")).1 = .error (.new (lit "no such file")) ∧
    ¬ ∃ e, (pvc.VolumeRead (samplePvc (samplePodi failedEvents (lit "\nno such file\n")))
        (lit "/f")).1 = .error e ∧
      e.Error = trimTrailingNewlines (lit "\nno such file\n") := by
  have hres : (pvc.VolumeRead (samplePvc (samplePodi failedEvents (lit "\nno such file\n")))
      (lit "/f")).1 = .error (.new (lit "no such file")) := rfl
  refine ⟨rfl, by decide, hres, ?_⟩
  rintro ⟨e, he, hmsg⟩
  rw [hres] at he
  cases he
  revert hmsg
  decide

/-- C1 (amended): when the temporary pod of `VolumeRead` ends in the Failed
phase and its log, opened and read without error, is `s`, `VolumeRead` returns
no data and an error whose message is `s` with all its leading and all its
trailing newline characters removed, every other byte kept: `s` is a run of
newlines, the message, and a run of newlines, and the message neither starts
nor ends with a newline. -/
theorem C1_failed_pod_error_is_trimmed_log (v : pvc) (path pid : GoString) (output : LogStream)
    (hcreate : (v.createPod [lit "cat", mountpoint ++ path]).1 = .ok pid)
    (hwait : (v.waitForPod pid).1 = some .errPodTerminated)
    (hlogs : v.podi.GetLogs pid = .ok output)
    (hread : output.readErr = none) :
    ∃ e a b, (v.VolumeRead path).1 = .error e ∧
      output.content = List.replicate a 10 ++ e.Error ++ List.replicate b 10 ∧
      e.Error.head? ≠ some 10 ∧ e.Error.getLast? ≠ some 10 := by
  have h := runInTemporaryPod_failed v _ pid output hcreate hwait hlogs hread
  obtain ⟨a, b, h1, h2, h3⟩ := stringsTrim_newline_spec output.content
  refine ⟨.new (stringsTrim output.content (lit "\n")), a, b, ?_, h1, h2, h3⟩
  unfold pvc.VolumeRead
  rcases hR : v.runInTemporaryPod [lit "cat", mountpoint ++ path] with ⟨r, tr⟩
  rw [hR] at h
  simp only at h
  subst h
  rfl

/-- C1 witness: the failed `cat /mnt/f` with the log `"\nno such file\n"`. -/
theorem C1_failed_pod_error_is_trimmed_log_witness :
    ∃ e a b, (pvc.VolumeRead (samplePvc (samplePodi failedEvents (lit "\nno such file\n")))
        (lit "/f")).1 = .error e ∧
      lit "\nno such file\n" = List.replicate a 10 ++ e.Error ++ List.replicate b 10 ∧
      e.Error.head? ≠ some 10 ∧ e.Error.getLast? ≠ some 10 :=
  C1_failed_pod_error_is_trimmed_log (samplePvc (samplePodi failedEvents (lit "\nno such file\n")))
    (lit "/f") (lit "wash-x7") ⟨lit "\nno such file\n", none, none⟩ rfl (by decide) rfl rfl

/-- C2: whenever `runInTemporaryPod` created its pod, exactly one `Delete` is
issued, for that pod, and it is the last call made before returning, whatever
the outcome (success, pod Failed, wait timeout or watch error, log stream that
cannot be opened, log that cannot be read); when the creation fails no `Delete`
is issued. -/
theorem C2_pod_deleted_exactly_once (v : pvc) (cmd : List GoString) :
    (∀ pid, (v.createPod cmd).1 = .ok pid →
      deletes (v.runInTemporaryPod cmd).2 = [pid] ∧
      (v.runInTemporaryPod cmd).2.getLast? = some (.Delete pid)) ∧
    (∀ err, (v.createPod cmd).1 = .error err → deletes (v.runInTemporaryPod cmd).2 = []) := by
  obtain ⟨_, hpod, _⟩ := createPod_trace v cmd
  obtain ⟨herr, hok⟩ := runInTemporaryPod_trace v cmd
  constructor
  · intro pid hp
    obtain ⟨mid, hmid, hd, _⟩ := hok pid hp
    rw [hmid]
    constructor
    · simp [deletes_append, hd, deletes, hpod]
    · simp
  · intro err he
    rw [herr err he, hpod]

/-- C2 at two concrete runs: a pod that Succeeded and a pod whose watch stays
silent after one event (wait timeout); each is deleted exactly once. -/
theorem C2_pod_deleted_exactly_once_witness :
    deletes (pvc.runInTemporaryPod (samplePvc (samplePodi succeededEvents (lit "data")))
      [lit "cat", lit "/mnt/f"]).2 = [lit "wash-x7"] ∧
    deletes (pvc.runInTemporaryPod (samplePvc (samplePodi stalledEvents (lit "data")))
      [lit "cat", lit "/mnt/f"]).2 = [lit "wash-x7"] :=
  ⟨((C2_pod_deleted_exactly_once (samplePvc (samplePodi succeededEvents (lit "data")))
      [lit "cat", lit "/mnt/f"]).1 (lit "wash-x7") rfl).1,
   ((C2_pod_deleted_exactly_once (samplePvc (samplePodi stalledEvents (lit "data")))
      [lit "cat", lit "/mnt/f"]).1 (lit "wash-x7") rfl).1⟩

/-- The pods created by `runInTemporaryPod` are those created by `createPod`. -/
theorem runInTemporaryPod_createdPods (v : pvc) (cmd : List GoString) :
    createdPods (v.runInTemporaryPod cmd).2 = createdPods (v.createPod cmd).2 := by
  obtain ⟨herr, hok⟩ := runInTemporaryPod_trace v cmd
  rcases hC : (v.createPod cmd).1 with err | pid
  · rw [herr err hC]
  · obtain ⟨mid, hmid, _, hc⟩ := hok pid hC
    rw [hmid]
    simp [createdPods_append, hc, createdPods]

/-- The shape of every trace of `VolumeStream`: after the `Create` call it
holds no `Delete` when a stream is returned, whose `Cleanup` is the delete of
the pod, and ends with the one `Delete` of the pod when an error is returned. -/
theorem VolumeStream_trace (v : pvc) (path : GoString) :
    (∀ err, (v.createPod [lit "tail", lit "-f", mountpoint ++ path]).1 = .error err →
      (v.VolumeStream path).2 = (v.createPod [lit "tail", lit "-f", mountpoint ++ path]).2) ∧
    (∀ pid, (v.createPod [lit "tail", lit "-f", mountpoint ++ path]).1 = .ok pid →
      ∃ mid, deletes mid = [] ∧ createdPods mid = [] ∧
        ((∃ output, (v.VolumeStream path).1 = .ok ⟨output, [.Delete pid]⟩ ∧
            (v.VolumeStream path).2 =
              (v.createPod [lit "tail", lit "-f", mountpoint ++ path]).2 ++ mid) ∨
         (∃ err, (v.VolumeStream path).1 = .error err ∧
            (v.VolumeStream path).2 =
              (v.createPod [lit "tail", lit "-f", mountpoint ++ path]).2 ++ mid ++
                [.Delete pid]))) := by
  unfold pvc.VolumeStream
  rcases hC : v.createPod [lit "tail", lit "-f", mountpoint ++ path] with ⟨r, t0⟩
  cases r with
  | error e => simp
  | ok pid =>
    refine ⟨by simp, ?_⟩
    intro pid2 hp
    simp only [Except.ok.injEq] at hp
    subst hp
    obtain ⟨hw1, hw2⟩ := waitForPod_trace v pid
    rcases hW : v.waitForPod pid with ⟨err, tw⟩
    rw [hW] at hw1 hw2
    simp only at hw1 hw2
    simp only [hW]
    split_ifs
    · exact ⟨tw, hw1, hw2, Or.inr ⟨_, rfl, by simp⟩⟩
    · split
      · exact ⟨tw ++ [.GetLogs pid], by simp [deletes_append, hw1, deletes],
          by simp [createdPods_append, hw2, createdPods], Or.inr ⟨_, rfl, by simp⟩⟩
      · split <;>
          exact ⟨tw ++ [.GetLogs pid, .ReadAll, .Close], by simp [deletes_append, hw1, deletes],
            by simp [createdPods_append, hw2, createdPods], Or.inr ⟨_, rfl, by simp⟩⟩
    · split
      · exact ⟨tw ++ [.GetLogs pid], by simp [deletes_append, hw1, deletes],
          by simp [createdPods_append, hw2, createdPods], Or.inr ⟨_, rfl, by simp⟩⟩
      · exact ⟨tw ++ [.GetLogs pid], by simp [deletes_append, hw1, deletes],
          by simp [createdPods_append, hw2, createdPods], Or.inl ⟨_, rfl, by simp⟩⟩

/-- C5: the pod `createPod` builds for the `rm -rf` of `VolumeDelete` mounts
the claim on `/mnt` read-only (`ReadOnly: true` in the volume mount and in the
volume source), exactly as the pods of `VolumeList`, `VolumeRead` and
`VolumeStream`: no pod is ever given a read-write mount. -/
theorem C5_every_pod_mounts_the_claim_read_only {DirMap : Type} (v : pvc) (path : GoString)
    (StatCmd : GoString → Int → List GoString)
    (StatParseAll : GoString → GoString → GoString → Int → Except GoError DirMap) :
    mountpoint = [47, 109, 110, 116] ∧
    (createdPods (v.VolumeDelete path).2).map
      (fun pod => pod.Spec.Containers.map (fun c => c.Args)) =
        [[[lit "rm", lit "-rf", mountpoint ++ path]]] ∧
    (createdPods (v.VolumeDelete path).2).map Pod.mounts = [[(mountpoint, true)]] ∧
    (createdPods (v.VolumeDelete path).2).map
      (fun pod => pod.Spec.Volumes.map (fun vol => vol.PersistentVolumeClaim.ReadOnly)) =
        [[true]] ∧
    (createdPods (v.VolumeList StatCmd StatParseAll path).2).map Pod.mounts =
      [[(mountpoint, true)]] ∧
    (createdPods (v.VolumeRead path).2).map Pod.mounts = [[(mountpoint, true)]] ∧
    (createdPods (v.VolumeStream path).2).map Pod.mounts = [[(mountpoint, true)]] := by
  have hrun : ∀ cmd, createdPods (v.runInTemporaryPod cmd).2 = createdPods (v.createPod cmd).2 :=
    runInTemporaryPod_createdPods v
  have hD : (v.VolumeDelete path).2 = (v.runInTemporaryPod [lit "rm", lit "-rf", mountpoint ++ path]).2 := by
    unfold pvc.VolumeDelete
    split <;> simp_all
  have hR : (v.VolumeRead path).2 = (v.runInTemporaryPod [lit "cat", mountpoint ++ path]).2 := by
    unfold pvc.VolumeRead
    split <;> simp_all
  have hL : (v.VolumeList StatCmd StatParseAll path).2 =
      (v.runInTemporaryPod (StatCmd (mountpoint ++ path) 10)).2 := by
    unfold pvc.VolumeList
    simp only []
    split <;> simp_all
  have hS : createdPods (v.VolumeStream path).2 =
      createdPods (v.createPod [lit "tail", lit "-f", mountpoint ++ path]).2 := by
    obtain ⟨herr, hok⟩ := VolumeStream_trace v path
    rcases hC : (v.createPod [lit "tail", lit "-f", mountpoint ++ path]).1 with err | pid
    · rw [herr err hC]
    · obtain ⟨mid, _, hc, h | h⟩ := hok pid hC
      · obtain ⟨_, _, ht⟩ := h
        rw [ht]
        simp [createdPods_append, hc]
      · obtain ⟨_, _, ht⟩ := h
        rw [ht]
        simp [createdPods_append, hc, createdPods]
  refine ⟨by decide, ?_, ?_, ?_, ?_, ?_, ?_⟩
  · rw [hD, hrun]
    exact (createPod_trace v _).2.2.2.1
  · rw [hD, hrun]
    exact (createPod_trace v _).2.2.1
  · rw [hD, hrun]
    exact (createPod_trace v _).2.2.2.2
  · rw [hL, hrun]
    exact (createPod_trace v _).2.2.1
  · rw [hR, hrun]
    exact (createPod_trace v _).2.2.1
  · rw [hS]
    exact (createPod_trace v _).2.2.1

theorem timerWins_of_lt (gap : Nat) (b : Bool) (h : gap < waitTimeout) : timerWins gap b = false := by
  unfold timerWins
  have h1 : ¬ waitTimeout < gap := by omega
  have h2 : ¬ gap = waitTimeout := by omega
  simp [h1, h2]

theorem timerWins_of_gt (gap : Nat) (b : Bool) (h : waitTimeout < gap) : timerWins gap b = true := by
  unfold timerWins
  simp [h]

/-- Non-terminal events that each arrive before the timer of their iteration
are consumed one by one, each iteration starting a new timer. -/
theorem waitLoop_skips (pid : GoString) (pre rest : List Arrival) (fin : ChanEnd)
    (hpre : ∀ a ∈ pre, a.gap < waitTimeout ∧ a.event.isTerminal = false) :
    waitLoop pid (pre ++ rest) fin = waitLoop pid rest fin := by
  induction pre with
  | nil => rfl
  | cons a as ih =>
    have ha := hpre a (List.mem_cons_self a as)
    have ih2 := ih (fun x hx => hpre x (List.mem_cons_of_mem a hx))
    obtain ⟨gap, tf, ev⟩ := a
    simp only at ha
    rw [List.cons_append, waitLoop, timerWins_of_lt _ _ ha.1]
    cases ev with
    | Modified phase => cases phase <;> simp_all [WatchEvent.isTerminal]
    | Error obj => simp [WatchEvent.isTerminal] at ha
    | _ => simp_all

theorem waitLoop_idle (pid : GoString) (rest : List Arrival) (fin : ChanEnd)
    (h : idleTimeout rest fin = true) : waitLoop pid rest fin = some (.timedOut pid) := by
  cases rest with
  | nil =>
    cases fin with
    | silent => rfl
    | closed gap tf =>
      have hg : waitTimeout < gap := by simpa [idleTimeout] using h
      simp [waitLoop, timerWins_of_gt _ _ hg]
  | cons a as =>
    have hg : waitTimeout < a.gap := by simpa [idleTimeout] using h
    simp [waitLoop, timerWins_of_gt _ _ hg]

/-- C6: the code breaks the claim. `waitForPod` starts a new
`time.After(30 * time.Second)` in every iteration of its loop, so the wait has
no bound in total: with the pod Running after 20 seconds and Succeeded after
40, no terminal status arrived within 30 seconds of the start of the wait, yet
`waitForPod` returns nil instead of the `Timed out waiting for pod` error. -/
theorem C6_events_postpone_the_timeout :
    terminalWithin waitTimeout slowEvents .silent = false ∧
    (pvc.waitForPod (samplePvc (samplePodi slowEvents [])) (lit "wash-x7")).1 = none ∧
    (pvc.waitForPod (samplePvc (samplePodi slowEvents [])) (lit "wash-x7")).1 ≠
      some (.timedOut (lit "wash-x7")) := by
  refine ⟨by decide, by decide, by decide⟩

/-- How the timer of `waitForPod` behaves: it bounds the wait for each single
event. After any number of non-terminal events that each arrive less than 30
seconds after the previous one, the timeout error is returned only once more
than 30 seconds pass without a further event or the closing of the channel,
and nil is returned when the next event arrives in less than 30 seconds and
reports the pod Succeeded, whatever time has passed since the start. -/
theorem waitForPod_timer_restarts_with_every_event (v : pvc) (pid : GoString) (ch : ResultChan)
    (pre rest : List Arrival)
    (hwatch : v.podi.Watch (lit "metadata.name=" ++ pid) = .ok ch)
    (hev : ch.events = pre ++ rest)
    (hpre : ∀ a ∈ pre, a.gap < waitTimeout ∧ a.event.isTerminal = false) :
    (idleTimeout rest ch.fin = true → (v.waitForPod pid).1 = some (.timedOut pid)) ∧
    (∀ a tail, rest = a :: tail → a.gap < waitTimeout → a.event = .Modified .Succeeded →
      (v.waitForPod pid).1 = none) := by
  have hw : (v.waitForPod pid).1 = waitLoop pid rest ch.fin := by
    unfold pvc.waitForPod
    simp only [hwatch, hev]
    exact waitLoop_skips pid pre rest ch.fin hpre
  constructor
  · intro h
    rw [hw]
    exact waitLoop_idle pid rest ch.fin h
  · intro a tail hr hg he
    rw [hw, hr, waitLoop, timerWins_of_lt _ _ hg, he]
    rfl

/-- A run of the timer of `waitForPod`: after a first event at one second
nothing arrives for 31 seconds, and the wait times out. -/
theorem waitForPod_times_out_after_a_silent_gap :
    (pvc.waitForPod (samplePvc (samplePodi stalledEvents [])) (lit "wash-x7")).1 =
      some (.timedOut (lit "wash-x7")) :=
  (waitForPod_timer_restarts_with_every_event (samplePvc (samplePodi stalledEvents []))
    (lit "wash-x7") ⟨stalledEvents, .silent⟩
    [⟨1000000000, false, .Modified .Running⟩] [⟨31000000000, false, .Modified .Succeeded⟩]
    rfl rfl (by decide)).1 (by decide)

/-- C7: once `VolumeStream` has created its pod: if the pod reaches the Failed
phase and its log is opened and read without error, no stream is returned but
an error whose message is the whole log, untrimmed; whenever an error is
returned the pod has been deleted exactly once; and when a stream is returned
no delete has been issued, the delete of the pod being the `Cleanup` of the
returned reader. -/
theorem C7_stream_deletes_pod_on_error_only (v : pvc) (path pid : GoString)
    (hcreate : (v.createPod [lit "tail", lit "-f", mountpoint ++ path]).1 = .ok pid) :
    (∀ output, (v.waitForPod pid).1 = some .errPodTerminated →
      v.podi.GetLogs pid = .ok output → output.readErr = none →
      (v.VolumeStream path).1 = .error (.new output.content) ∧
      (GoError.new output.content).Error = output.content ∧
      deletes (v.VolumeStream path).2 = [pid]) ∧
    (∀ err, (v.VolumeStream path).1 = .error err → deletes (v.VolumeStream path).2 = [pid]) ∧
    (∀ r, (v.VolumeStream path).1 = .ok r →
      deletes (v.VolumeStream path).2 = [] ∧ r.Cleanup = [.Delete pid]) := by
  obtain ⟨_, hok⟩ := VolumeStream_trace v path
  obtain ⟨mid, hd, _, hcase⟩ := hok pid hcreate
  have hcd := (createPod_trace v [lit "tail", lit "-f", mountpoint ++ path]).2.1
  have herr : ∀ err, (v.VolumeStream path).1 = .error err →
      deletes (v.VolumeStream path).2 = [pid] := by
    intro err he
    rcases hcase with ⟨output, h1, _⟩ | ⟨_, _, ht⟩
    · rw [h1] at he
      cases he
    · rw [ht]
      simp [deletes_append, hd, hcd, deletes]
  refine ⟨?_, herr, ?_⟩
  · intro output hwait hlogs hread
    have hres : (v.VolumeStream path).1 = .error (.new output.content) := by
      unfold pvc.VolumeStream
      rcases hC : v.createPod [lit "tail", lit "-f", mountpoint ++ path] with ⟨r, t0⟩
      rw [hC] at hcreate
      simp only at hcreate
      subst hcreate
      rcases hW : v.waitForPod pid with ⟨e, tw⟩
      rw [hW] at hwait
      simp only at hwait
      subst hwait
      simp [hlogs, hread, hW]
    exact ⟨hres, rfl, herr _ hres⟩
  · intro r hr
    rcases hcase with ⟨output, h1, ht⟩ | ⟨_, h1, _⟩
    · rw [h1] at hr
      cases hr
      rw [ht]
      exact ⟨by simp [deletes_append, hd, hcd], rfl⟩
    · rw [h1] at hr
      cases hr

/-- C7 witness: `tail -f` on a missing file; the pod Failed, the error carries
the whole log with its newlines, and the pod was deleted once. -/
theorem C7_stream_deletes_pod_on_error_only_witness :
    (pvc.VolumeStream (samplePvc (samplePodi failedEvents (lit "\nno such file\n")))
        (lit "/f")).1 = .error (.new (lit "\nno such file\n")) ∧
    deletes (pvc.VolumeStream (samplePvc (samplePodi failedEvents (lit "\nno such file\n")))
        (lit "/f")).2 = [lit "wash-x7"] :=
  have h := (C7_stream_deletes_pod_on_error_only
    (samplePvc (samplePodi failedEvents (lit "\nno such file\n"))) (lit "/f") (lit "wash-x7")
    rfl).1 ⟨lit "\nno such file\n", none, none⟩ (by decide) rfl rfl
  ⟨h.1, h.2.2⟩

/-! ## Properties of `munge/interface.go` -/

/-- A string held in an `interface{}` slot, or a plain string element,
converts to the string itself. -/
theorem toType_string (elem : GoType) (s : GoString) (helem : elem = .iface ∨ elem = .string) :
    toType (elemValue elem (.str s)) .string = .ok (.concrete (.str s)) := by
  rcases helem with h | h <;> subst h <;>
    simp [toType, elemValue, Value.Interface, ValueOf, Value.Type, GoVal.typeOf, ConvertibleTo,
      Value.Convert, Value.stored]

/-- The slice loop over strings fills the destination from left to right. -/
theorem sliceLoop_strings (elem : GoType) (helem : elem = .iface ∨ elem = .string)
    (ss : List GoString) (done : List GoVal) :
    sliceLoop (fun x => toType x .string) elem .string (ss.map .str) done.length
        (done ++ List.replicate ss.length GoType.string.zero) =
      .ok (.concrete (.slice .string (done ++ ss.map .str))) := by
  induction ss generalizing done with
  | nil => simp [sliceLoop]
  | cons s ss ih =>
    have hset : (done ++ List.replicate (ss.length + 1) GoType.string.zero).set done.length
        (GoVal.str s) = (done ++ [GoVal.str s]) ++ List.replicate ss.length GoType.string.zero := by
      simp [List.replicate_succ]
    have hstep := ih (done ++ [GoVal.str s])
    simp only [List.length_append, List.length_singleton] at hstep
    simp only [List.map_cons, List.length_cons, sliceLoop, toType_string elem s helem,
      Value.Type, GoVal.typeOf, Value.stored, if_true, hset, hstep]
    simp

theorem setMapIndex_fresh (dest : List (GoKey × GoVal)) (k : GoKey) (x : GoVal)
    (h : k ∉ dest.map Prod.fst) : setMapIndex dest k x = dest ++ [(k, x)] := by
  induction dest with
  | nil => rfl
  | cons e es ih =>
    obtain ⟨k0, x0⟩ := e
    simp only [List.map_cons, List.mem_cons, not_or] at h
    have hne : ¬ k0 = k := fun e => h.1 e.symm
    simp [setMapIndex, hne, ih h.2]

/-- The map loop over string values with distinct keys adds the entries one
after the other. -/
theorem mapLoop_strings (elem : GoType) (helem : elem = .iface ∨ elem = .string)
    (kvs : List (GoString × GoString)) (dest : List (GoKey × GoVal))
    (hnodup : (kvs.map Prod.fst).Nodup)
    (hfresh : ∀ p ∈ kvs, GoKey.str p.1 ∉ dest.map Prod.fst) :
    mapLoop (fun x => toType x .string) .string elem .string .string
        (kvs.map fun p => (GoKey.str p.1, GoVal.str p.2)) dest =
      .ok (.concrete (.map .string .string
        (dest ++ kvs.map fun p => (GoKey.str p.1, GoVal.str p.2)))) := by
  induction kvs generalizing dest with
  | nil => simp [mapLoop]
  | cons p ps ih =>
    simp only [List.map_cons, List.nodup_cons] at hnodup
    have hp := hfresh p (List.mem_cons_self p ps)
    have hfresh2 : ∀ q ∈ ps, GoKey.str q.1 ∉ (dest ++ [(GoKey.str p.1, GoVal.str p.2)]).map Prod.fst := by
      intro q hq
      have h1 := hfresh q (List.mem_cons_of_mem p hq)
      simp only [List.map_append, List.map_cons, List.map_nil, List.mem_append,
        List.mem_singleton, GoKey.str.injEq, not_or]
      refine ⟨h1, ?_⟩
      intro heq
      exact hnodup.1 (heq ▸ List.mem_map_of_mem Prod.fst hq)
    have hstep := ih (dest ++ [(GoKey.str p.1, GoVal.str p.2)]) hnodup.2 hfresh2
    simp only [List.map_cons, mapLoop, toType_string elem p.2 helem, Value.Type, GoVal.typeOf,
      Value.stored, true_or, and_self, if_true, setMapIndex_fresh dest _ _ hp, hstep]
    simp

/-- C10: `ToType` of a slice of strings, typed `[]string` or `[]interface{}`,
into a `*[]string` returns a nil error and leaves in the destination a slice of
the same strings in the same order; `ToType` of a map from strings to strings,
typed `map[string]string` or `map[string]interface{}` (its keys distinct, as
in every Go map), into a `*map[string]string` returns a nil error and leaves in
the destination a map with the same keys bound to the same strings. -/
theorem C10_strings_convert_to_strings (ss : List GoString) (kvs : List (GoString × GoString))
    (d0 m0 : GoVal) (hkeys : (kvs.map Prod.fst).Nodup) :
    ToType (.slice .string (ss.map .str)) (.pointer (.slice .string) d0) =
      some (none, .pointer (.slice .string) (.slice .string (ss.map .str))) ∧
    ToType (.slice .iface (ss.map .str)) (.pointer (.slice .string) d0) =
      some (none, .pointer (.slice .string) (.slice .string (ss.map .str))) ∧
    ToType (.map .string .string (kvs.map fun p => (GoKey.str p.1, GoVal.str p.2)))
        (.pointer (.map .string .string) m0) =
      some (none, .pointer (.map .string .string)
        (.map .string .string (kvs.map fun p => (GoKey.str p.1, GoVal.str p.2)))) ∧
    ToType (.map .string .iface (kvs.map fun p => (GoKey.str p.1, GoVal.str p.2)))
        (.pointer (.map .string .string) m0) =
      some (none, .pointer (.map .string .string)
        (.map .string .string (kvs.map fun p => (GoKey.str p.1, GoVal.str p.2)))) := by
  refine ⟨?_, ?_, ?_, ?_⟩
  · simp [ToType, toType, ValueOf, Value.Interface, Value.Type, GoVal.typeOf, ConvertibleTo,
      Value.Convert, Value.stored]
  · have h := sliceLoop_strings .iface (Or.inl rfl) ss []
    simp only [List.length_nil, List.nil_append] at h
    have ht : toType (.concrete (.slice .iface (ss.map .str))) (.slice .string) =
        .ok (.concrete (.slice .string (ss.map .str))) := by
      rw [toType]
      simp [ValueOf, Value.Interface, Value.Type, GoVal.typeOf, ConvertibleTo, h]
    simp [ToType, ValueOf, ht, Value.Type, GoVal.typeOf, Value.stored]
  · simp [ToType, toType, ValueOf, Value.Interface, Value.Type, GoVal.typeOf, ConvertibleTo,
      Value.Convert, Value.stored]
  · have h := mapLoop_strings .iface (Or.inl rfl) kvs [] hkeys (by simp)
    simp only [List.nil_append] at h
    have ht : toType (.concrete (.map .string .iface
          (kvs.map fun p => (GoKey.str p.1, GoVal.str p.2)))) (.map .string .string) =
        .ok (.concrete (.map .string .string
          (kvs.map fun p => (GoKey.str p.1, GoVal.str p.2)))) := by
      rw [toType]
      simp [ValueOf, Value.Interface, Value.Type, GoVal.typeOf, ConvertibleTo, h]
    simp [ToType, ValueOf, ht, Value.Type, GoVal.typeOf, Value.stored]

/-- C10 witness: the values of the tests, `hello, there` and `hello: there`. -/
theorem C10_strings_convert_to_strings_witness :
    ToType (.slice .iface [.str (lit "hello"), .str (lit "there")])
        (.pointer (.slice .string) (.slice .string [])) =
      some (none, .pointer (.slice .string)
        (.slice .string [.str (lit "hello"), .str (lit "there")])) ∧
    ToType (.map .string .iface [(.str (lit "hello"), .str (lit "there"))])
        (.pointer (.map .string .string) (.map .string .string [])) =
      some (none, .pointer (.map .string .string)
        (.map .string .string [(.str (lit "hello"), .str (lit "there"))])) :=
  have h := C10_strings_convert_to_strings [lit "hello", lit "there"]
    [(lit "hello", lit "there")] (.slice .string []) (.map .string .string []) (by decide)
  ⟨h.2.1, h.2.2.2⟩

/-- C11: `ToType` does not return an error for every value it cannot convert.
With a non-nil pointer destination it panics on a nil element of a
`[]interface{}` (`reflect.ValueOf(nil).Type()`), on a nil `v`, and on a map
whose key type is not the key type of the destination (`SetMapIndex`), where
its documentation promises an error; an element of another type (a bool among
strings) does yield the error. Whenever an error is returned, the value the
destination points to is unchanged. -/
theorem C11_nil_element_panics_instead_of_error (pointee : GoVal) :
    ToType (.slice .iface [.str (lit "hello"), .nil]) (.pointer (.slice .string) pointee) = none ∧
    ToType .nil (.pointer (.slice .string) pointee) = none ∧
    ToType (.map .int .iface [(.int 1, .str (lit "a"))])
      (.pointer (.map .string .string) pointee) = none ∧
    ToType (.slice .iface [.str (lit "hello"), .bool true]) (.pointer (.slice .string) pointee) =
      some (some (.cannotConvert .iface .string), .pointer (.slice .string) pointee) ∧
    (∀ (v : GoVal) (elem : GoType) (e : ToTypeError) (t2 : Target),
      ToType v (.pointer elem pointee) = some (some e, t2) → t2 = .pointer elem pointee) := by
  refine ⟨rfl, rfl, rfl, rfl, ?_⟩
  intro v elem e t2 h
  unfold ToType at h
  simp only at h
  split at h
  · simp only [Option.some.injEq, Prod.mk.injEq] at h
    exact h.2.symm
  · exact absurd h (by simp)
  · split at h
    · simp at h
    · exact absurd h (by simp)

/-! ## Properties of the console output `Read` -/

/-- What the builtin `copy` does to its destination. -/
theorem copy_spec (p src : GoString) :
    (copy p src).2 = min p.length src.length ∧
    (copy p src).1.length = p.length ∧
    (copy p src).1.take (copy p src).2 = src.take (copy p src).2 ∧
    (copy p src).1.drop (copy p src).2 = p.drop (copy p src).2 := by
  have hlen : (src.take (min p.length src.length)).length = min p.length src.length := by
    rw [List.length_take]
    omega
  refine ⟨rfl, ?_, ?_, ?_⟩
  · simp only [copy, List.length_append, List.length_take, List.length_drop]
    omega
  · simp only [copy]
    rw [List.take_append_of_le_length (by rw [hlen]), List.take_take, min_self]
  · simp only [copy]
    rw [List.drop_append_of_le_length (by rw [hlen]), List.drop_eq_nil_of_le (by rw [hlen]),
      List.nil_append]

theorem sliceFrom_in_range (c : GoString) (off : Int) (h0 : 0 ≤ off) (h1 : off ≤ c.length) :
    sliceFrom c off = some (c.drop off.toNat) ∧ (c.drop off.toNat).length = c.length - off.toNat := by
  constructor
  · rw [sliceFrom, if_pos ⟨h0, h1⟩]
  · rw [List.length_drop]

/-- C12: for every console content `c`, buffer `p` and offset `off` with
`0 <= off <= len(c)`, the `Read` of the EC2 console output (whose cached output
is `c`) and the `Read` of the GCP console output (whose console is `c`, kept
from an earlier call or fetched by this one) return without panic, with a nil
error and `n = min(len(p), len(c) - off)`; `p` keeps its length, its first `n`
bytes are `c[off .. off+n)` and its other bytes are unchanged. -/
theorem C12_console_read_copies_from_offset (c p : GoString) (off : Int)
    (h0 : 0 ≤ off) (h1 : off ≤ c.length) :
    (∀ (cl : ec2InstanceConsoleOutput) (mtime : Int),
      cl.inst cl.latest = .ok { mtime := mtime, content := c } →
      ∃ r cl2, cl.Read p off = some (r, cl2) ∧ r.err = none ∧
        r.n = min p.length (c.length - off.toNat) ∧ r.p.length = p.length ∧
        r.p.take r.n = (c.drop off.toNat).take r.n ∧ r.p.drop r.n = p.drop r.n) ∧
    (∀ cl : computeInstanceConsoleOutput,
      (cl.console = c ∧ c ≠ lit "") ∨ (cl.console = lit "" ∧ cl.service = .ok c) →
      ∃ r cl2, cl.Read p off = some (r, cl2) ∧ r.err = none ∧
        r.n = min p.length (c.length - off.toNat) ∧ r.p.length = p.length ∧
        r.p.take r.n = (c.drop off.toNat).take r.n ∧ r.p.drop r.n = p.drop r.n) := by
  obtain ⟨hs, hl⟩ := sliceFrom_in_range c off h0 h1
  obtain ⟨c1, c2, c3, c4⟩ := copy_spec p (c.drop off.toNat)
  rw [hl] at c1
  constructor
  · intro cl mtime hinst
    refine ⟨⟨(copy p (c.drop off.toNat)).2, none, (copy p (c.drop off.toNat)).1⟩,
      { cl with attributes := { size := some c.length } }, ?_, rfl, c1, c2, c3, c4⟩
    simp only [ec2InstanceConsoleOutput.Read, hinst, hs]
  · intro cl hcl
    rcases hcl with ⟨hc, hne⟩ | ⟨hc, hsvc⟩
    · refine ⟨⟨(copy p (c.drop off.toNat)).2, none, (copy p (c.drop off.toNat)).1⟩, cl, ?_,
        rfl, c1, c2, c3, c4⟩
      have hne2 : ¬ cl.console = lit "" := by rw [hc]; exact hne
      simp only [computeInstanceConsoleOutput.Read, if_neg hne2]
      rw [hc, hs]
    · refine ⟨⟨(copy p (c.drop off.toNat)).2, none, (copy p (c.drop off.toNat)).1⟩,
        { cl with console := c }, ?_, rfl, c1, c2, c3, c4⟩
      simp only [computeInstanceConsoleOutput.Read, if_pos hc, hsvc, hs]

/-- C12 witness: reading four bytes at offset 5 of the eight bytes of
`sampleConsole` copies its last three bytes and leaves the fourth byte of the
buffer as it was. -/
theorem C12_console_read_copies_from_offset_witness :
    (∃ r cl2, sampleEC2Console.Read [0, 0, 0, 0] 5 = some (r, cl2) ∧ r.err = none ∧
      r.n = 3 ∧ r.p = [111, 107, 10, 0]) ∧
    (∃ r cl2, sampleGCPConsole.Read [0, 0, 0, 0] 5 = some (r, cl2) ∧ r.err = none ∧
      r.n = 3 ∧ r.p = [111, 107, 10, 0]) := by
  have h := C12_console_read_copies_from_offset sampleConsole [0, 0, 0, 0] 5
    (by decide) (by decide)
  obtain ⟨r, cl2, hr, he, hn, _⟩ := h.1 sampleEC2Console 0 rfl
  obtain ⟨r2, cl3, hr2, he2, hn2, _⟩ := h.2 sampleGCPConsole (Or.inr ⟨rfl, rfl⟩)
  have e1 : (sampleEC2Console.Read [0, 0, 0, 0] 5).map (fun x => x.1) =
      some ⟨3, none, [111, 107, 10, 0]⟩ := rfl
  have e2 : (sampleGCPConsole.Read [0, 0, 0, 0] 5).map (fun x => x.1) =
      some ⟨3, none, [111, 107, 10, 0]⟩ := rfl
  rw [hr] at e1
  rw [hr2] at e2
  simp only [Option.map_some', Option.some.injEq] at e1 e2
  exact ⟨⟨r, cl2, hr, he, by rw [e1], by rw [e1]⟩, ⟨r2, cl3, hr2, he2, by rw [e2], by rw [e2]⟩⟩

end Wash
